import Mathlib

/-!
Verification of the knowledge-base indexing and retrieval engine
(`src/file_qa.py`, class `FileQA`).

The engine is shallowly embedded: Python strings become `List Char`,
the per-tenant FAISS index is abstracted by its vector count (the only
observable the engine reads: `index.ntotal`), the FAISS `index.search`
result is an injected list of `(distance, position)` pairs, and the
external embedding / text-extraction / generation providers are injected
functions.  Fallible paths (`raise ValueError`, provider failures)
become `Except String`.
-/

namespace FileQA

/-! ## Chunker (`FileQA.chunk_text`, file_qa.py lines 93-110)

The Python `while` loop is embedded with explicit fuel; running out of
fuel returns `none`, so termination of the source loop is the statement
that enough fuel exists.  `text[start:end]` on a Python string is
`(text.drop start).take (e - start)` on the character list. -/

/-- `end` of the current window (lines 100-102): `start + chunk_size`,
clamped to the text length. -/
def chunkEnd (text : List Char) (chunk_size start : Nat) : Nat :=
  if start + chunk_size > text.length then text.length
  else start + chunk_size

/-- `start` of the next window (lines 105-108): `end` when the text is
exhausted (`text_len == end`), else `end - overlap`. -/
def nextStart (text : List Char) (chunk_size overlap start : Nat) : Nat :=
  if text.length = chunkEnd text chunk_size start then
    chunkEnd text chunk_size start
  else
    chunkEnd text chunk_size start - overlap

/-- The `while start < text_len` loop of `chunk_text`: append
`text[start:end]` and continue from `nextStart`.  `none` = out of fuel. -/
def chunkLoop (text : List Char) (chunk_size overlap : Nat) :
    Nat → Nat → Option (List (List Char))
  | 0, _ => none
  | fuel + 1, start =>
    if start < text.length then
      (chunkLoop text chunk_size overlap fuel
          (nextStart text chunk_size overlap start)).map
        (((text.drop start).take (chunkEnd text chunk_size start - start)) :: ·)
    else
      some []

/-- `FileQA.chunk_text(text, chunk_size=1000, overlap=100)`.
`text.length + 1` units of fuel suffice whenever `overlap < chunk_size`
(proved below); the `[]` fallback is never reached in that regime. -/
def chunk_text (text : List Char) (chunk_size : Nat := 1000)
    (overlap : Nat := 100) : List (List Char) :=
  (chunkLoop text chunk_size overlap (text.length + 1) 0).getD []

/-- Re-assembly used to state the chunking round-trip: the first chunk,
then every later chunk with its first `overlap` characters removed. -/
def reassemble (overlap : Nat) : List (List Char) → List Char
  | [] => []
  | c :: rest => c ++ (rest.map (List.drop overlap)).flatten

/-! ## Data model

`Document Record` as written by `add_document` (file_qa.py lines 139-146),
the process-wide metadata table (a Python `dict`, i.e. an insertion-ordered
association list), and the per-tenant index abstracted by its `ntotal`. -/

/-- The record stored in `self.metadata[document_id]` (lines 139-146). -/
structure DocRecord where
  file_path : String
  chunks : List (List Char)
  num_vectors : Nat
  start_idx : Nat
  added_at : String
  chatbot_id : Nat
deriving Repr, DecidableEq

/-- Engine state: the metadata table (`self.metadata`, a `dict` keyed by
document id, insertion-ordered) and, for each chatbot id, the tenant
index's vector count `ntotal` (absent entry = no index file yet; a fresh
`IndexFlatL2` has `ntotal = 0`). -/
structure KBState where
  metadata : List (String × DocRecord)
  indices : List (Nat × Nat)
deriving Repr, DecidableEq

/-- The engine right after construction with no persisted state. -/
def initState : KBState := { metadata := [], indices := [] }

/-- `ntotal` of the tenant's index as returned by
`get_or_create_index(chatbot_id)` (lines 38-48): a fresh index is empty. -/
def getNtotal (indices : List (Nat × Nat)) (cid : Nat) : Nat :=
  match indices.lookup cid with
  | some n => n
  | none => 0

/-- Record the tenant index's new `ntotal` after `index.add` plus
`faiss.write_index` (lines 136, 149). -/
def setNtotal (indices : List (Nat × Nat)) (cid : Nat) (n : Nat) :
    List (Nat × Nat) :=
  match indices with
  | [] => [(cid, n)]
  | (c, m) :: rest =>
    if c = cid then (c, n) :: rest else (c, m) :: setNtotal rest cid n

/-- `self.metadata[document_id] = record` on a Python dict: replace in
place when the key exists, otherwise append (dict insertion order). -/
def dictInsert (m : List (String × DocRecord)) (k : String) (v : DocRecord) :
    List (String × DocRecord) :=
  match m with
  | [] => [(k, v)]
  | (k', v') :: rest =>
    if k' = k then (k', v) :: rest else (k', v') :: dictInsert rest k v

/-! ## Text extraction (`FileQA.extract_text_from_file`, lines 71-91)

The file on disk is abstracted to its detected MIME type together with
the text the external libraries (PyPDF2 / docx2txt / plain read) would
deliver; `page.extract_text()` is the page's own text. -/

/-- A file as `extract_text_from_file` observes it: its MIME type from
`magic.from_file`, its pages for the PDF branch, its text content for
the DOCX and `text/*` branches. -/
structure FileData where
  mime : String
  pages : List (List Char)
  content : List Char
deriving Repr, DecidableEq

/-- `extract_text_from_file` (lines 71-91): dispatch on the MIME type;
the PDF branch concatenates `page.extract_text() + "\n"` over all pages;
`mime_type.startswith('text/')` is the character-prefix test; an
unrecognized type raises `ValueError(f"Unsupported file type: …")`. -/
def extract_text_from_file (f : FileData) : Except String (List Char) :=
  if f.mime = "application/pdf" then
    .ok ((f.pages.map (fun p => p ++ ['\n'])).flatten)
  else if f.mime = "application/vnd.openxmlformats-officedocument.wordprocessingml.document" then
    .ok f.content
  else if ("text/".data).isPrefixOf f.mime.data then
    .ok f.content
  else
    .error ("Unsupported file type: " ++ f.mime)

/-! ## Ingestion (`FileQA.add_document`, lines 112-163) -/

/-- The `for chunk in chunks` embedding loop (lines 126-129) with the
injected embedding provider; a provider failure aborts the whole call.
An embedding vector is abstract (`Nat` token): the engine never inspects
it, only counts vectors. -/
def mapEmbed (embed : List Char → Except String Nat) :
    List (List Char) → Except String (List Nat)
  | [] => .ok []
  | c :: cs =>
    match embed c with
    | .error e => .error e
    | .ok v =>
      match mapEmbed embed cs with
      | .error e => .error e
      | .ok vs => .ok (v :: vs)

/-- `FileQA.add_document(file_path, document_id, db, chatbot_id)`
(lines 112-163).  `now` stands for `datetime.now()` (used for the
generated id and `added_at`).  Raising `ValueError` and propagating a
provider failure are `.error`; on success the new state and the document
id are returned.  The FAISS `index.add(embeddings_array)` advances
`ntotal` by the number of embeddings; `start_idx` is then read back as
`index.ntotal - len(chunks)` (line 143). -/
def add_document (embed : List Char → Except String Nat) (st : KBState)
    (fd : FileData) (file_path : String) (document_id : Option String) :
    Option Nat → String → Except String (KBState × String)
  | none, _ => .error "chatbot_id is required"
  | some cid, now =>
    let docId := match document_id with
      | none => "doc_" ++ now
      | some d => d
    match extract_text_from_file fd with
    | .error e => .error e
    | .ok text =>
      let chunks := chunk_text text
      match mapEmbed embed chunks with
      | .error e => .error e
      | .ok embs =>
        let n1 := getNtotal st.indices cid + embs.length
        let record := { file_path := file_path, chunks := chunks,
                        num_vectors := chunks.length,
                        start_idx := n1 - chunks.length,
                        added_at := now, chatbot_id := cid : DocRecord }
        .ok ({ metadata := dictInsert st.metadata docId record,
               indices := setNtotal st.indices cid n1 }, docId)

/-! ## Retrieval (`FileQA.search`, lines 165-200)

FAISS `index.search` is injected as a list of `(score, idx)` pairs
(`zip(D[0], I[0])`); positions are `Int` because FAISS pads missing
neighbors with the sentinel `-1`.  The inner `for doc_id, meta in
self.metadata.items()` loop resolves one position to the first matching
record. -/

/-- One result dict appended by `search` (lines 192-197).  Scores are
kept abstract as `Int` (the resolution logic never computes with them). -/
structure SearchResult where
  document_id : String
  chunk : List Char
  score : Int
  file_path : String
deriving Repr, DecidableEq

/-- Line 188: `document_ids is not None and doc_id not in document_ids`. -/
def filteredOut (document_ids : Option (List String)) (doc_id : String) :
    Bool :=
  match document_ids with
  | some ids => decide (doc_id ∉ ids)
  | none => false

/-- The inner metadata scan of `search` (lines 182-198), up to the
record it stops at: skip records of other tenants (`continue`), skip
records whose `[start_idx, start_idx+num_vectors)` range misses `idx`,
and — when a `document_ids` filter is given — skip (`continue`) matching
records whose id is not in the filter; `break` at the first survivor. -/
def findRecord (metadata : List (String × DocRecord)) (cid : Nat)
    (document_ids : Option (List String)) (idx : Int) :
    Option (String × DocRecord) :=
  match metadata with
  | [] => none
  | (doc_id, meta) :: rest =>
    if meta.chatbot_id ≠ cid then
      findRecord rest cid document_ids idx
    else if (meta.start_idx : Int) ≤ idx ∧
            idx < (meta.start_idx : Int) + (meta.num_vectors : Int) then
      if filteredOut document_ids doc_id then
        findRecord rest cid document_ids idx
      else
        some (doc_id, meta)
    else
      findRecord rest cid document_ids idx

/-- The body of the outer `for score, idx in zip(D[0], I[0])` loop: the
result dict built from the record the scan stops at, with
`chunk_idx = idx - meta['start_idx']` (line 191); `none` when the scan
falls through without appending. -/
def resolveHit (metadata : List (String × DocRecord)) (cid : Nat)
    (document_ids : Option (List String)) (score idx : Int) :
    Option SearchResult :=
  (findRecord metadata cid document_ids idx).map fun (doc_id, meta) =>
    { document_id := doc_id,
      chunk := meta.chunks.getD (idx - (meta.start_idx : Int)).toNat [],
      score := score,
      file_path := meta.file_path }

/-- `FileQA.search(query, k, document_ids, chatbot_id)` (lines 165-200),
with the FAISS response `zip(D[0], I[0])` injected as `hits`.  The
missing-tenant guard (lines 167-168) raises before anything else. -/
def search (st : KBState) (hits : List (Int × Int))
    (document_ids : Option (List String)) (chatbot_id : Option Nat) :
    Except String (List SearchResult) :=
  match chatbot_id with
  | none => .error "chatbot_id is required"
  | some cid =>
    .ok (hits.filterMap fun h =>
      resolveHit st.metadata cid document_ids h.1 h.2)

/-! ## Query answering (`FileQA.query_knowledge_base`, lines 202-228) -/

/-- `Instructions.get_knowledge_base_instructions()` (instructions.py):
the fixed system preamble; its exact text is irrelevant to the claims. -/
def knowledge_base_instructions : String :=
  "You are a knowledgeable assistant that provides accurate information based on the given context."

/-- The `"\n\n".join(f"Context {i+1}:\n{chunk}")` context block
(lines 211-212). -/
def buildContext (results : List SearchResult) : String :=
  String.intercalate "\n\n"
    ((results.enum.map fun p =>
      "Context " ++ toString (p.1 + 1) ++ ":\n" ++ String.mk p.2.chunk))

/-- `FileQA.query_knowledge_base` (lines 202-228): run `search`; on an
empty result list return the fixed no-information sentence, otherwise
delegate to the injected chat-completion provider `generate` with the
system/user message pair of lines 215-218. -/
def query_knowledge_base (generate : List (String × String) → String)
    (st : KBState) (hits : List (Int × Int)) (query : String)
    (document_ids : Option (List String)) (chatbot_id : Option Nat) :
    Except String String :=
  match search st hits document_ids chatbot_id with
  | .error e => .error e
  | .ok search_results =>
    if search_results.isEmpty then
      .ok "No relevant information found in the knowledge base."
    else
      .ok (generate
        [("system", knowledge_base_instructions),
         ("user", "Using the following context, answer this question: " ++
            query ++ "\n\nContext:\n" ++ buildContext search_results)])

/-! ## Derived notions used by the stated properties -/

/-- `j` lies in the document's vector range
`[start_idx, start_idx + num_vectors)`. -/
def inRange (r : DocRecord) (j : Nat) : Prop :=
  r.start_idx ≤ j ∧ j < r.start_idx + r.num_vectors

instance (r : DocRecord) (j : Nat) : Decidable (inRange r j) :=
  inferInstanceAs (Decidable (_ ∧ _))

/-- The records of one tenant in a metadata table, in insertion order. -/
def tenantDocsMd (md : List (String × DocRecord)) (cid : Nat) :
    List DocRecord :=
  (md.filter fun p => p.2.chatbot_id == cid).map (·.2)

/-- The records of one tenant, in metadata (= insertion) order. -/
def tenantDocs (st : KBState) (cid : Nat) : List DocRecord :=
  tenantDocsMd st.metadata cid

/-- A tenant's records laid out back to back starting at `base`: each
record starts where the previous one ended. -/
def rangesConsecutive (base : Nat) : List DocRecord → Prop
  | [] => True
  | r :: rest => r.start_idx = base ∧
      rangesConsecutive (base + r.num_vectors) rest

/-- One `add_document` call of an ingestion sequence: the file, its
locator, the (explicit) document id, the target tenant and the
timestamp. -/
structure IngestCall where
  fd : FileData
  file_path : String
  document_id : String
  chatbot_id : Nat
  now : String
deriving Repr, DecidableEq

/-- Run one `add_document` call against the engine state; a call that
raises (`.error`) leaves the persisted state unchanged — in the source
every mutation (lines 136-150) happens after the last fallible step. -/
def runIngest (embed : List Char → Except String Nat) (st : KBState)
    (call : IngestCall) : KBState :=
  match add_document embed st call.fd call.file_path
      (some call.document_id) (some call.chatbot_id) call.now with
  | .ok (st', _) => st'
  | .error _ => st

/-- State after a sequential ingestion sequence from a fresh engine. -/
def runAll (embed : List Char → Except String Nat)
    (calls : List IngestCall) : KBState :=
  calls.foldl (runIngest embed) initState

/-- The per-tenant bookkeeping invariant: for every tenant its records
sit back to back from offset `0`, and the index's `ntotal` equals the
sum of their `num_vectors`. -/
def Inv (st : KBState) : Prop :=
  ∀ cid, rangesConsecutive 0 (tenantDocs st cid) ∧
    getNtotal st.indices cid =
      ((tenantDocs st cid).map (·.num_vectors)).sum

/-- Sample plain-text file used to instantiate proven statements. -/
def sampleFile : FileData :=
  { mime := "text/plain", pages := [], content := "hello world".data }

/-- Sample file of an unrecognized MIME type. -/
def badFile : FileData :=
  { mime := "application/x-foo", pages := [], content := "x".data }

/-- Sample embedding provider that always succeeds. -/
def embedOk : List Char → Except String Nat := fun _ => .ok 0

/-- Sample embedding provider that always fails. -/
def embedFail : List Char → Except String Nat :=
  fun _ => .error "provider down"

/-- Outcome of a sample successful ingestion into a fresh engine. -/
def sampleAdd : Except String (KBState × String) :=
  add_document embedOk initState sampleFile "f.txt" (some "d1") (some 7)
    "t0"

/-- The engine state after `sampleAdd`. -/
def sampleState : KBState :=
  match sampleAdd with
  | .ok (s, _) => s
  | .error _ => initState

/-- The document record `sampleAdd` writes for `"d1"`. -/
def sampleRecord : DocRecord :=
  { file_path := "f.txt", chunks := ["hello world".data],
    num_vectors := 1, start_idx := 0, added_at := "t0", chatbot_id := 7 }

/-- Results of a sample unfiltered search against `sampleState` with
one real hit and one sentinel hit. -/
def sampleRes : List SearchResult :=
  match search sampleState [(1, 0), (3, -1)] none (some 7) with
  | .ok r => r
  | .error _ => []

/-- Results of a sample search filtered to `document_ids = ["d1"]`. -/
def sampleResFiltered : List SearchResult :=
  match search sampleState [(1, 0)] (some ["d1"]) (some 7) with
  | .ok r => r
  | .error _ => []

/-- First call of a sample two-document ingestion sequence. -/
def sampleCallA : IngestCall :=
  { fd := sampleFile, file_path := "f.txt", document_id := "d1",
    chatbot_id := 7, now := "t0" }

/-- Second call of a sample two-document ingestion sequence. -/
def sampleCallB : IngestCall :=
  { fd := sampleFile, file_path := "g.txt", document_id := "d2",
    chatbot_id := 7, now := "t1" }

/-! ## Chunker lemmas -/

theorem chunkEnd_min (text : List Char) (c start : Nat) :
    chunkEnd text c start = min (start + c) text.length := by
  unfold chunkEnd; split <;> omega

theorem nextStart_cases (text : List Char) (c o start : Nat)
    (ho : o < c) (hs : start < text.length) :
    (nextStart text c o start = text.length ∧ text.length ≤ start + c) ∨
    (nextStart text c o start = start + (c - o) ∧
      start + c < text.length) := by
  unfold nextStart chunkEnd
  split_ifs with h1 h2 h3 <;> omega

theorem chunkLoop_isSome_of_fuel (text : List Char) (c o : Nat)
    (ho : o < c) :
    ∀ fuel start, text.length - start < fuel →
      (chunkLoop text c o fuel start).isSome := by
  intro fuel
  induction fuel with
  | zero => intro start h; omega
  | succ fuel ih =>
    intro start h
    rw [chunkLoop]
    by_cases hs : start < text.length
    · rw [if_pos hs]
      have hnext : text.length - nextStart text c o start < fuel := by
        rcases nextStart_cases text c o start ho hs with ⟨h1, h2⟩ | ⟨h1, h2⟩ <;>
          omega
      have := ih (nextStart text c o start) hnext
      cases hcl : chunkLoop text c o fuel (nextStart text c o start) with
      | none => rw [hcl] at this; simp at this
      | some r => rfl
    · rw [if_neg hs]; rfl

theorem chunkLoop_length (text : List Char) (c o : Nat)
    (hc : 0 < c) (ho : o < c) :
    ∀ fuel start r, chunkLoop text c o fuel start = some r →
      r.length =
        (if text.length - start = 0 then 0
         else if text.length - start ≤ c then 1
         else (text.length - start - o + (c - o) - 1) / (c - o)) := by
  intro fuel
  induction fuel with
  | zero => intro start r h; simp [chunkLoop] at h
  | succ fuel ih =>
    intro start r h
    rw [chunkLoop] at h
    by_cases hs : start < text.length
    · rw [if_pos hs] at h
      cases hcl : chunkLoop text c o fuel (nextStart text c o start) with
      | none => rw [hcl] at h; simp at h
      | some r' =>
        rw [hcl] at h
        simp only [Option.map_some', Option.some.injEq] at h
        have hr' := ih (nextStart text c o start) r' hcl
        rcases nextStart_cases text c o start ho hs with ⟨h1, h2⟩ | ⟨h1, h2⟩
        · rw [h1] at hr'
          have hr'0 : r'.length = 0 := by simpa using hr'
          rw [← h]
          simp only [List.length_cons, hr'0]
          rw [if_neg (by omega : ¬ (text.length - start = 0)),
            if_pos (by omega : text.length - start ≤ c)]
        · rw [h1] at hr'
          rw [← h]
          simp only [List.length_cons]
          have hne : ¬ (text.length - start = 0) := by omega
          have hgt : ¬ (text.length - start ≤ c) := by omega
          rw [if_neg hne, if_neg hgt]
          by_cases hsm : text.length - (start + (c - o)) ≤ c
          · have hne' : ¬ (text.length - (start + (c - o)) = 0) := by omega
            rw [if_neg hne', if_pos hsm] at hr'
            rw [hr']
            have hdiv : (text.length - start - o + (c - o) - 1) / (c - o) = 2 := by
              apply Nat.div_eq_of_lt_le <;> omega
            omega
          · rw [if_neg (by omega), if_neg hsm] at hr'
            have harith : text.length - start - o + (c - o) - 1 =
                (text.length - (start + (c - o)) - o + (c - o) - 1) + (c - o) := by
              omega
            rw [harith, Nat.add_div_right _ (by omega : 0 < c - o)]
            omega
    · rw [if_neg hs] at h
      simp only [Option.some.injEq] at h
      rw [← h]
      simp only [List.length_nil]
      rw [if_pos (by omega)]

theorem chunkLoop_drop_flatten (text : List Char) (c o : Nat)
    (ho : o < c) :
    ∀ fuel start r, chunkLoop text c o fuel start = some r →
      (r.map (List.drop o)).flatten = text.drop (start + o) := by
  intro fuel
  induction fuel with
  | zero => intro start r h; simp [chunkLoop] at h
  | succ fuel ih =>
    intro start r h
    rw [chunkLoop] at h
    by_cases hs : start < text.length
    · rw [if_pos hs] at h
      cases hcl : chunkLoop text c o fuel (nextStart text c o start) with
      | none => rw [hcl] at h; simp at h
      | some r' =>
        rw [hcl] at h
        simp only [Option.map_some', Option.some.injEq] at h
        have hr' := ih (nextStart text c o start) r' hcl
        rw [← h]
        simp only [List.map_cons, List.flatten_cons]
        rw [hr', List.drop_take, List.drop_drop]
        rcases nextStart_cases text c o start ho hs with ⟨h1, h2⟩ | ⟨h1, h2⟩
        · have he : chunkEnd text c start = text.length := by
            rw [chunkEnd_min]; omega
          have htake : List.take (text.length - start - o)
              (List.drop (start + o) text) = List.drop (start + o) text :=
            List.take_of_length_le (by rw [List.length_drop]; omega)
          have hdrop : List.drop (text.length + o) text = [] :=
            List.drop_eq_nil_of_le (by omega)
          rw [he, h1, htake, hdrop, List.append_nil]
        · have he : chunkEnd text c start = start + c := by
            rw [chunkEnd_min]; omega
          have harith : start + c - start - o = c - o := by omega
          have harith2 : start + (c - o) + o = start + o + (c - o) := by omega
          have hdd : List.drop (start + o + (c - o)) text
              = List.drop (c - o) (List.drop (start + o) text) :=
            (List.drop_drop _ _ _).symm
          rw [he, h1, harith, harith2, hdd]
          exact List.take_append_drop _ _
    · rw [if_neg hs] at h
      simp only [Option.some.injEq] at h
      rw [← h]
      simp only [List.map_nil, List.flatten_nil]
      have : List.drop (start + o) text = [] :=
        List.drop_eq_nil_of_le (by omega)
      rw [this]

theorem chunk_text_eq (text : List Char) (c o : Nat) (ho : o < c) :
    chunkLoop text c o (text.length + 1) 0 = some (chunk_text text c o) := by
  obtain ⟨r, hr⟩ := Option.isSome_iff_exists.mp
    (chunkLoop_isSome_of_fuel text c o ho (text.length + 1) 0 (by omega))
  rw [hr, chunk_text, hr]
  rfl

/-- C7: with `overlap < chunk_size` the `chunk_text` loop terminates —
`text.length + 1` iterations of fuel are never exhausted — because from
any in-range window start the next start either strictly advances by
`chunk_size − overlap` or equals the text length (the window end reached
it), ending the loop. -/
theorem C7_chunk_text_terminates (text : List Char) (c o : Nat)
    (ho : o < c) :
    (chunkLoop text c o (text.length + 1) 0).isSome ∧
    ∀ start, start < text.length →
      (nextStart text c o start = text.length ∨
       (nextStart text c o start = start + (c - o) ∧
        start < nextStart text c o start)) := by
  refine ⟨chunkLoop_isSome_of_fuel text c o ho (text.length + 1) 0 (by omega),
    fun start hs => ?_⟩
  rcases nextStart_cases text c o start ho hs with ⟨h1, _⟩ | ⟨h1, _⟩
  · exact Or.inl h1
  · exact Or.inr ⟨h1, by omega⟩

/-- Witness for C7 at the spec §8 scenario text, `chunk_size = 5`,
`overlap = 1`. -/
theorem C7_chunk_text_terminates_witness :
    (chunkLoop "AAAA BBBB CCCC".data 5 1
      ("AAAA BBBB CCCC".data.length + 1) 0).isSome ∧
    ∀ start, start < "AAAA BBBB CCCC".data.length →
      (nextStart "AAAA BBBB CCCC".data 5 1 start =
          "AAAA BBBB CCCC".data.length ∨
       (nextStart "AAAA BBBB CCCC".data 5 1 start = start + (5 - 1) ∧
        start < nextStart "AAAA BBBB CCCC".data 5 1 start)) :=
  C7_chunk_text_terminates "AAAA BBBB CCCC".data 5 1 (by decide)

/-- C3: for `0 < chunk_size = c` and `overlap = o < c`, `chunk_text`
returns no chunk on empty text, one chunk when the text fits in one
window, and `⌈(n − o) / (c − o)⌉ = (n − o + (c − o) − 1) / (c − o)`
chunks when `n = text.length > c`; and the first chunk followed by every
later chunk minus its first `o` characters re-assembles the text. -/
theorem C3_chunk_count_and_reassembly (text : List Char) (c o : Nat)
    (hc : 0 < c) (ho : o < c) :
    (chunk_text text c o).length =
      (if text.length = 0 then 0
       else if text.length ≤ c then 1
       else (text.length - o + (c - o) - 1) / (c - o)) ∧
    reassemble o (chunk_text text c o) = text := by
  have hr := chunk_text_eq text c o ho
  constructor
  · have := chunkLoop_length text c o hc ho _ _ _ hr
    simpa using this
  · rw [chunkLoop] at hr
    by_cases h0 : 0 < text.length
    · rw [if_pos h0] at hr
      cases hcl : chunkLoop text c o (text.length + 1 - 1)
          (nextStart text c o 0) with
      | none =>
        rw [show text.length + 1 - 1 = text.length from rfl] at hcl
        rw [hcl] at hr; simp at hr
      | some r' =>
        rw [show text.length + 1 - 1 = text.length from rfl] at hcl
        rw [hcl] at hr
        simp only [Option.map_some', Option.some.injEq] at hr
        rw [← hr, reassemble]
        have hrest := chunkLoop_drop_flatten text c o ho _ _ _ hcl
        rw [hrest]
        rcases nextStart_cases text c o 0 ho h0 with ⟨h1, h2⟩ | ⟨h1, h2⟩
        · have he : chunkEnd text c 0 = text.length := by
            rw [chunkEnd_min]; omega
          have hdrop : List.drop (text.length + o) text = [] :=
            List.drop_eq_nil_of_le (by omega)
          rw [he, h1, hdrop, List.append_nil]
          simp [List.take_of_length_le]
        · have he : chunkEnd text c 0 = c := by
            rw [chunkEnd_min]; omega
          have hdd : List.drop (0 + (c - o) + o) text
              = List.drop c text := by
            have : 0 + (c - o) + o = c := by omega
            rw [this]
          rw [he, h1, hdd]
          simp only [List.drop_zero, Nat.sub_zero]
          exact List.take_append_drop _ _
    · rw [if_neg h0] at hr
      simp only [Option.some.injEq] at hr
      rw [← hr, reassemble]
      have : text = [] := List.eq_nil_of_length_eq_zero (by omega)
      rw [this]

/-- Witness for C3 at the spec §8 scenario: 14 characters,
`chunk_size = 5`, `overlap = 1` give `⌈13/4⌉ = 4` chunks that
re-assemble to the text. -/
theorem C3_chunk_count_and_reassembly_witness :
    (chunk_text "AAAA BBBB CCCC".data 5 1).length =
      (if "AAAA BBBB CCCC".data.length = 0 then 0
       else if "AAAA BBBB CCCC".data.length ≤ 5 then 1
       else ("AAAA BBBB CCCC".data.length - 1 + (5 - 1) - 1) / (5 - 1)) ∧
    reassemble 1 (chunk_text "AAAA BBBB CCCC".data 5 1) =
      "AAAA BBBB CCCC".data :=
  C3_chunk_count_and_reassembly "AAAA BBBB CCCC".data 5 1
    (by decide) (by decide)

/-! ## Ingestion lemmas -/

theorem mapEmbed_length {embed : List Char → Except String Nat} :
    ∀ {l : List (List Char)} {es : List Nat},
      mapEmbed embed l = .ok es → es.length = l.length := by
  intro l
  induction l with
  | nil =>
    intro es h
    simp only [mapEmbed, Except.ok.injEq] at h
    rw [← h]
    rfl
  | cons c cs ih =>
    intro es h
    rw [mapEmbed] at h
    cases he : embed c with
    | error e => rw [he] at h; simp at h
    | ok v =>
      rw [he] at h
      cases hm : mapEmbed embed cs with
      | error e => rw [hm] at h; simp at h
      | ok vs =>
        rw [hm] at h
        simp only [Except.ok.injEq] at h
        rw [← h, List.length_cons, List.length_cons, ih hm]

theorem add_document_ok {embed : List Char → Except String Nat}
    {st : KBState} {fd : FileData} {fp : String} {did : Option String}
    {cid : Nat} {now : String} {st' : KBState} {rid : String}
    (h : add_document embed st fd fp did (some cid) now = .ok (st', rid)) :
    ∃ text embs, extract_text_from_file fd = .ok text ∧
      mapEmbed embed (chunk_text text) = .ok embs ∧
      embs.length = (chunk_text text).length ∧
      rid = did.getD ("doc_" ++ now) ∧
      st' = { metadata := dictInsert st.metadata rid
                { file_path := fp, chunks := chunk_text text,
                  num_vectors := (chunk_text text).length,
                  start_idx := getNtotal st.indices cid + embs.length
                    - (chunk_text text).length,
                  added_at := now, chatbot_id := cid },
              indices := setNtotal st.indices cid
                (getNtotal st.indices cid + embs.length) } := by
  simp only [add_document] at h
  cases hext : extract_text_from_file fd with
  | error e => rw [hext] at h; simp at h
  | ok text =>
    rw [hext] at h
    simp only [] at h
    cases hemb : mapEmbed embed (chunk_text text) with
    | error e => rw [hemb] at h; simp at h
    | ok embs =>
      rw [hemb] at h
      simp only [Except.ok.injEq, Prod.mk.injEq] at h
      obtain ⟨hst, hrid⟩ := h
      refine ⟨text, embs, rfl, hemb, mapEmbed_length hemb, ?_,
        by rw [← hst, hrid]⟩
      cases did with
      | none => exact hrid.symm
      | some d => exact hrid.symm

theorem lookup_dictInsert (m : List (String × DocRecord)) (k : String)
    (v : DocRecord) : (dictInsert m k v).lookup k = some v := by
  induction m with
  | nil => simp [dictInsert, List.lookup]
  | cons p rest ih =>
    obtain ⟨k', v'⟩ := p
    rw [dictInsert]
    by_cases hk : k' = k
    · rw [if_pos hk]; subst hk; simp [List.lookup]
    · rw [if_neg hk]
      have hb : (k == k') = false := beq_eq_false_iff_ne.mpr (Ne.symm hk)
      simp only [List.lookup, hb]
      exact ih

theorem dictInsert_fresh {m : List (String × DocRecord)} {k : String}
    (v : DocRecord) (h : ∀ p ∈ m, p.1 ≠ k) :
    dictInsert m k v = m ++ [(k, v)] := by
  induction m with
  | nil => rfl
  | cons p rest ih =>
    obtain ⟨k', v'⟩ := p
    rw [dictInsert, if_neg (h (k', v') (List.mem_cons_self _ _)),
      List.cons_append, ih fun q hq => h q (List.mem_cons_of_mem _ hq)]

theorem mem_dictInsert {m : List (String × DocRecord)} {k : String}
    {v : DocRecord} {p : String × DocRecord} (hp : p ∈ dictInsert m k v) :
    p.1 = k ∨ p ∈ m := by
  induction m with
  | nil =>
    simp only [dictInsert, List.mem_singleton] at hp
    left; rw [hp]
  | cons q rest ih =>
    obtain ⟨k', v'⟩ := q
    rw [dictInsert] at hp
    by_cases hk : k' = k
    · rw [if_pos hk] at hp
      rcases List.mem_cons.mp hp with h | h
      · left; rw [h, hk]
      · right; exact List.mem_cons_of_mem _ h
    · rw [if_neg hk] at hp
      rcases List.mem_cons.mp hp with h | h
      · right; rw [h]; exact List.mem_cons_self _ _
      · rcases ih h with h' | h'
        · left; exact h'
        · right; exact List.mem_cons_of_mem _ h'

theorem getNtotal_cons (c m cid : Nat) (rest : List (Nat × Nat)) :
    getNtotal ((c, m) :: rest) cid =
      if cid = c then m else getNtotal rest cid := by
  by_cases h : cid = c
  · subst h; simp [getNtotal, List.lookup]
  · have hb : (cid == c) = false := beq_eq_false_iff_ne.mpr h
    simp only [getNtotal, List.lookup, hb, if_neg h]

theorem getNtotal_setNtotal_self (indices : List (Nat × Nat))
    (cid n : Nat) : getNtotal (setNtotal indices cid n) cid = n := by
  induction indices with
  | nil => simp [setNtotal, getNtotal_cons]
  | cons p rest ih =>
    obtain ⟨c, m⟩ := p
    rw [setNtotal]
    by_cases hc : c = cid
    · rw [if_pos hc]; subst hc; simp [getNtotal_cons]
    · rw [if_neg hc, getNtotal_cons, if_neg (Ne.symm hc)]
      exact ih

theorem getNtotal_setNtotal_other {indices : List (Nat × Nat)}
    {cid cid' n : Nat} (h : cid' ≠ cid) :
    getNtotal (setNtotal indices cid n) cid' = getNtotal indices cid' := by
  induction indices with
  | nil =>
    simp only [setNtotal, getNtotal_cons, if_neg h]
  | cons p rest ih =>
    obtain ⟨c, m⟩ := p
    rw [setNtotal]
    by_cases hc : c = cid
    · rw [if_pos hc]; subst hc
      rw [getNtotal_cons, getNtotal_cons, if_neg h, if_neg h]
    · rw [if_neg hc, getNtotal_cons, getNtotal_cons]
      by_cases hc' : cid' = c
      · rw [if_pos hc', if_pos hc']
      · rw [if_neg hc', if_neg hc']
        exact ih

/-! ## Hit-resolution lemmas -/

theorem findRecord_mem {metadata : List (String × DocRecord)} {cid : Nat}
    {ids : Option (List String)} {idx : Int} {d : String} {m : DocRecord}
    (h : findRecord metadata cid ids idx = some (d, m)) :
    (d, m) ∈ metadata ∧ m.chatbot_id = cid ∧
    (m.start_idx : Int) ≤ idx ∧
    idx < (m.start_idx : Int) + (m.num_vectors : Int) ∧
    (∀ l, ids = some l → d ∈ l) := by
  induction metadata with
  | nil => simp [findRecord] at h
  | cons p rest ih =>
    obtain ⟨doc_id, meta⟩ := p
    rw [findRecord] at h
    by_cases h1 : meta.chatbot_id ≠ cid
    · rw [if_pos h1] at h
      have := ih h
      exact ⟨List.mem_cons_of_mem _ this.1, this.2⟩
    · rw [if_neg h1] at h
      push_neg at h1
      by_cases h2 : (meta.start_idx : Int) ≤ idx ∧
          idx < (meta.start_idx : Int) + (meta.num_vectors : Int)
      · rw [if_pos h2] at h
        by_cases h3 : filteredOut ids doc_id
        · rw [if_pos h3] at h
          have := ih h
          exact ⟨List.mem_cons_of_mem _ this.1, this.2⟩
        · rw [if_neg h3] at h
          simp only [Option.some.injEq, Prod.mk.injEq] at h
          obtain ⟨hd, hm⟩ := h
          subst hd; subst hm
          refine ⟨List.mem_cons_self _ _, h1, h2.1, h2.2, fun l hl => ?_⟩
          rw [hl] at h3
          simpa [filteredOut] using h3
      · rw [if_neg h2] at h
        have := ih h
        exact ⟨List.mem_cons_of_mem _ this.1, this.2⟩

theorem findRecord_none {metadata : List (String × DocRecord)} {cid : Nat}
    {ids : Option (List String)} {idx : Int}
    (h : ∀ p ∈ metadata, p.2.chatbot_id = cid →
      ¬((p.2.start_idx : Int) ≤ idx ∧
        idx < (p.2.start_idx : Int) + (p.2.num_vectors : Int))) :
    findRecord metadata cid ids idx = none := by
  induction metadata with
  | nil => rfl
  | cons p rest ih =>
    obtain ⟨doc_id, meta⟩ := p
    rw [findRecord]
    by_cases h1 : meta.chatbot_id ≠ cid
    · rw [if_pos h1]
      exact ih fun q hq => h q (List.mem_cons_of_mem _ hq)
    · rw [if_neg h1]
      push_neg at h1
      rw [if_neg (h (doc_id, meta) (List.mem_cons_self _ _) h1)]
      exact ih fun q hq => h q (List.mem_cons_of_mem _ hq)

theorem resolveHit_eq {metadata : List (String × DocRecord)} {cid : Nat}
    {ids : Option (List String)} {score idx : Int} {r : SearchResult}
    (h : resolveHit metadata cid ids score idx = some r) :
    ∃ d m, findRecord metadata cid ids idx = some (d, m) ∧
      r = { document_id := d,
            chunk := m.chunks.getD (idx - (m.start_idx : Int)).toNat [],
            score := score, file_path := m.file_path } := by
  rw [resolveHit] at h
  cases hf : findRecord metadata cid ids idx with
  | none => rw [hf] at h; simp at h
  | some p =>
    obtain ⟨d, m⟩ := p
    rw [hf] at h
    simp only [Option.map_some', Option.some.injEq] at h
    exact ⟨d, m, rfl, h.symm⟩

/-- C6: searching a tenant none of whose records exist — no metadata
record carries its `chatbot_id` — yields `.ok []` (an empty result list,
not an error) whatever positions the index returned; and, for any
tenant, a returned position that lies outside every one of the tenant's
`[start_idx, start_idx+num_vectors)` ranges (e.g. the `-1` sentinel FAISS
pads with when the index holds fewer than `k` vectors) contributes no
result entry. -/
theorem C6_empty_tenant_search (st : KBState) (hits : List (Int × Int))
    (ids : Option (List String)) (cid : Nat)
    (hempty : ∀ p ∈ st.metadata, p.2.chatbot_id ≠ cid) :
    search st hits ids (some cid) = .ok [] ∧
    (∀ score idx : Int,
      (∀ p ∈ st.metadata, p.2.chatbot_id = cid →
        ¬((p.2.start_idx : Int) ≤ idx ∧
          idx < (p.2.start_idx : Int) + (p.2.num_vectors : Int))) →
      resolveHit st.metadata cid ids score idx = none) := by
  constructor
  · rw [search]
    simp only [Except.ok.injEq]
    rw [List.filterMap_eq_nil_iff]
    intro a _
    rw [resolveHit, findRecord_none fun p hp hc => absurd hc (hempty p hp)]
    rfl
  · intro score idx hmiss
    rw [resolveHit, findRecord_none hmiss]
    rfl

/-- Witness for C6: a fresh engine, one sentinel hit, tenant 7. -/
theorem C6_empty_tenant_search_witness :
    search initState [(1, -1)] none (some 7) = .ok [] ∧
    (∀ score idx : Int,
      (∀ p ∈ initState.metadata, p.2.chatbot_id = 7 →
        ¬((p.2.start_idx : Int) ≤ idx ∧
          idx < (p.2.start_idx : Int) + (p.2.num_vectors : Int))) →
      resolveHit initState.metadata 7 none score idx = none) :=
  C6_empty_tenant_search initState [(1, -1)] none 7 (by decide)

theorem resolveHit_score {metadata : List (String × DocRecord)}
    {cid : Nat} {ids : Option (List String)} {score idx : Int}
    {r : SearchResult}
    (h : resolveHit metadata cid ids score idx = some r) :
    r.score = score := by
  obtain ⟨d, m, _, hr⟩ := resolveHit_eq h
  rw [hr]

theorem search_scores_sublist (metadata : List (String × DocRecord))
    (cid : Nat) (ids : Option (List String)) :
    ∀ hits : List (Int × Int),
      ((hits.filterMap fun h =>
          resolveHit metadata cid ids h.1 h.2).map SearchResult.score).Sublist
        (hits.map Prod.fst) := by
  intro hits
  induction hits with
  | nil => simp
  | cons h0 rest ih =>
    rw [List.filterMap_cons]
    cases hr : resolveHit metadata cid ids h0.1 h0.2 with
    | none => exact ih.cons _
    | some r =>
      rw [List.map_cons, List.map_cons, resolveHit_score hr]
      exact ih.cons₂ _

/-- C4: on a FAISS response of at most `k` `(distance, position)` pairs
whose distances arrive in non-decreasing order, `search` returns at most
`k` results whose scores are again non-decreasing (result order preserves
hit order), and every result is built from a metadata record of the
queried tenant, with the result's chunk read at offset
`idx − start_idx` of that record's chunk list for some in-range `idx`. -/
theorem C4_search_ranked_and_resolvable (st : KBState)
    (hits : List (Int × Int)) (k : Nat) (ids : Option (List String))
    (cid : Nat) (res : List SearchResult)
    (hk : hits.length ≤ k)
    (hsorted : List.Sorted (· ≤ ·) (hits.map Prod.fst))
    (h : search st hits ids (some cid) = .ok res) :
    res.length ≤ k ∧
    List.Sorted (· ≤ ·) (res.map SearchResult.score) ∧
    ∀ r ∈ res, ∃ p ∈ st.metadata, p.2.chatbot_id = cid ∧
      r.document_id = p.1 ∧
      ∃ idx : Int, (p.2.start_idx : Int) ≤ idx ∧
        idx < (p.2.start_idx : Int) + (p.2.num_vectors : Int) ∧
        r.chunk = p.2.chunks.getD (idx - (p.2.start_idx : Int)).toNat [] := by
  rw [search] at h
  simp only [Except.ok.injEq] at h
  subst h
  refine ⟨le_trans (List.length_filterMap_le _ _) hk, ?_, ?_⟩
  · exact List.Pairwise.sublist (search_scores_sublist st.metadata cid ids hits)
      hsorted
  · intro r hr
    obtain ⟨a, _, ha⟩ := List.mem_filterMap.mp hr
    obtain ⟨d, m, hf, hr'⟩ := resolveHit_eq ha
    obtain ⟨hmem, hcid, hlo, hhi, _⟩ := findRecord_mem hf
    refine ⟨(d, m), hmem, hcid, ?_, a.2, hlo, hhi, ?_⟩ <;> rw [hr']

/-- Witness for C4: one ingested document, two hits `(1,0), (3,-1)`
(the second a sentinel), `k = 2`. -/
theorem C4_search_ranked_and_resolvable_witness :
    sampleRes.length ≤ 2 ∧
    List.Sorted (· ≤ ·) (sampleRes.map SearchResult.score) ∧
    ∀ r ∈ sampleRes, ∃ p ∈ sampleState.metadata, p.2.chatbot_id = 7 ∧
      r.document_id = p.1 ∧
      ∃ idx : Int, (p.2.start_idx : Int) ≤ idx ∧
        idx < (p.2.start_idx : Int) + (p.2.num_vectors : Int) ∧
        r.chunk = p.2.chunks.getD (idx - (p.2.start_idx : Int)).toNat [] :=
  C4_search_ranked_and_resolvable sampleState [(1, 0), (3, -1)] 2 none 7
    sampleRes (by decide) (by decide) rfl

/-- C5: whenever the `document_ids` filter is supplied, every result of
a successful `search` names a document inside that filter. -/
theorem C5_document_ids_filter (st : KBState) (hits : List (Int × Int))
    (l : List String) (cid : Nat) (res : List SearchResult)
    (h : search st hits (some l) (some cid) = .ok res) :
    ∀ r ∈ res, r.document_id ∈ l := by
  rw [search] at h
  simp only [Except.ok.injEq] at h
  subst h
  intro r hr
  obtain ⟨a, _, ha⟩ := List.mem_filterMap.mp hr
  obtain ⟨d, m, hf, hr'⟩ := resolveHit_eq ha
  obtain ⟨_, _, _, _, hin⟩ := findRecord_mem hf
  rw [hr']
  exact hin l rfl

/-- Witness for C5: the one result of the filtered sample search has
its `document_id` inside the filter `["d1"]`. -/
theorem C5_document_ids_filter_witness :
    ({ document_id := "d1", chunk := "hello world".data, score := 1,
       file_path := "f.txt" } : SearchResult).document_id ∈ ["d1"] :=
  C5_document_ids_filter sampleState [(1, 0)] ["d1"] 7 sampleResFiltered
    rfl _ (List.mem_cons_self _ _)

/-- C10: whenever the hit-resolution scan of `search` stops at a record
(so `start_idx ≤ idx < start_idx + num_vectors` holds for it) whose
`num_vectors` equals the length of its chunk list, the chunk lookup at
`idx − start_idx` is inside the chunk list; and every record written by
a successful `add_document` satisfies that length equation. -/
theorem C10_chunk_lookup_in_bounds :
    (∀ (metadata : List (String × DocRecord)) (cid : Nat)
       (ids : Option (List String)) (idx : Int) (d : String)
       (m : DocRecord),
      findRecord metadata cid ids idx = some (d, m) →
      m.num_vectors = m.chunks.length →
      (idx - (m.start_idx : Int)).toNat < m.chunks.length) ∧
    (∀ embed st fd fp did cid now st' rid,
      add_document embed st fd fp did (some cid) now = .ok (st', rid) →
      ∃ m, st'.metadata.lookup rid = some m ∧
        m.num_vectors = m.chunks.length) := by
  constructor
  · intro metadata cid ids idx d m hf hwf
    obtain ⟨_, _, hlo, hhi, _⟩ := findRecord_mem hf
    omega
  · intro embed st fd fp did cid now st' rid h
    obtain ⟨text, embs, _, _, _, _, hst⟩ := add_document_ok h
    subst hst
    exact ⟨_, lookup_dictInsert st.metadata rid _, rfl⟩

/-- Witness for C10: position `0` resolved inside the sample state, and
the record `sampleAdd` wrote. -/
theorem C10_chunk_lookup_in_bounds_witness :
    ((0 : Int) - ((sampleRecord.start_idx : Nat) : Int)).toNat <
      sampleRecord.chunks.length ∧
    (∃ m, sampleState.metadata.lookup "d1" = some m ∧
      m.num_vectors = m.chunks.length) :=
  ⟨C10_chunk_lookup_in_bounds.1 sampleState.metadata 7 none 0 "d1"
      sampleRecord rfl rfl,
   C10_chunk_lookup_in_bounds.2 embedOk initState sampleFile "f.txt"
      (some "d1") 7 "t0" sampleState "d1" rfl⟩

/-- C2: a successful `add_document` producing `m` chunks advances the
tenant index's `ntotal` by exactly `m`, and the stored record has
`num_vectors = m` and `start_idx` equal to the pre-ingestion `ntotal`. -/
theorem C2_add_document_accounting {embed : List Char → Except String Nat}
    {st : KBState} {fd : FileData} {fp : String} {did : Option String}
    {cid : Nat} {now : String} {st' : KBState} {rid : String}
    {text : List Char}
    (h : add_document embed st fd fp did (some cid) now = .ok (st', rid))
    (htext : extract_text_from_file fd = .ok text) :
    getNtotal st'.indices cid
      = getNtotal st.indices cid + (chunk_text text).length ∧
    ∃ m, st'.metadata.lookup rid = some m ∧
      m.num_vectors = (chunk_text text).length ∧
      m.start_idx = getNtotal st.indices cid := by
  obtain ⟨text', embs, hext, hemb, hlen, _, hst⟩ := add_document_ok h
  have htx : text' = text := by
    rw [htext] at hext
    exact (Except.ok.injEq _ _ ▸ hext).symm ▸ rfl
  subst htx
  subst hst
  refine ⟨?_, _, lookup_dictInsert st.metadata rid _, rfl, ?_⟩
  · simp only [getNtotal_setNtotal_self]
    omega
  · simp only []
    omega

/-- Witness for C2: the sample ingestion ("hello world", one chunk)
takes tenant 7's index from 0 to 1 vector with `start_idx = 0`. -/
theorem C2_add_document_accounting_witness :
    getNtotal sampleState.indices 7
      = getNtotal initState.indices 7 +
        (chunk_text ("hello world".data)).length ∧
    ∃ m, sampleState.metadata.lookup "d1" = some m ∧
      m.num_vectors = (chunk_text ("hello world".data)).length ∧
      m.start_idx = getNtotal initState.indices 7 :=
  @C2_add_document_accounting embedOk initState sampleFile "f.txt"
    (some "d1") 7 "t0" sampleState "d1" ("hello world".data) rfl rfl

/-- C8: the expected failure paths of the engine operations surface as
explicit error values of the operation's result type: a missing
`chatbot_id` on `add_document` or `search`, an unsupported MIME type
during extraction (whole-call failure, no partial ingestion), and an
embedding-provider failure (whole-call failure). -/
theorem C8_failures_are_explicit :
    (∀ embed st fd fp did now,
      add_document embed st fd fp did none now
        = .error "chatbot_id is required") ∧
    (∀ st hits ids,
      search st hits ids none = .error "chatbot_id is required") ∧
    (∀ embed st fd fp did cid now e,
      extract_text_from_file fd = .error e →
      add_document embed st fd fp did (some cid) now = .error e) ∧
    (∀ fd, fd.mime ≠ "application/pdf" →
      fd.mime ≠ "application/vnd.openxmlformats-officedocument.wordprocessingml.document" →
      ¬ ("text/".data).isPrefixOf fd.mime.data →
      extract_text_from_file fd
        = .error ("Unsupported file type: " ++ fd.mime)) ∧
    (∀ embed st fd fp did cid now text e,
      extract_text_from_file fd = .ok text →
      mapEmbed embed (chunk_text text) = .error e →
      add_document embed st fd fp did (some cid) now = .error e) := by
  refine ⟨fun embed st fd fp did now => rfl, fun st hits ids => rfl,
    ?_, ?_, ?_⟩
  · intro embed st fd fp did cid now e hext
    simp only [add_document, hext]
  · intro fd h1 h2 h3
    rw [extract_text_from_file, if_neg h1, if_neg h2,
      if_neg (by simpa using h3)]
  · intro embed st fd fp did cid now text e hext hemb
    simp only [add_document, hext, hemb]

/-- Witness for C8 at concrete inputs: missing tenant on both
operations, the `application/x-foo` file, a failing provider. -/
theorem C8_failures_are_explicit_witness :
    add_document embedOk initState sampleFile "f" (some "d") none "t"
      = .error "chatbot_id is required" ∧
    search initState [] none none = .error "chatbot_id is required" ∧
    add_document embedOk initState badFile "f" (some "d") (some 1) "t"
      = .error ("Unsupported file type: " ++ badFile.mime) ∧
    extract_text_from_file badFile
      = .error ("Unsupported file type: " ++ badFile.mime) ∧
    add_document embedFail initState sampleFile "f" (some "d") (some 1)
      "t" = .error "provider down" :=
  ⟨C8_failures_are_explicit.1 embedOk initState sampleFile "f" (some "d")
      "t",
   C8_failures_are_explicit.2.1 initState [] none,
   C8_failures_are_explicit.2.2.1 embedOk initState badFile "f"
      (some "d") 1 "t" _ rfl,
   C8_failures_are_explicit.2.2.2.1 badFile (by decide) (by decide)
      (by decide),
   C8_failures_are_explicit.2.2.2.2 embedFail initState sampleFile "f"
      (some "d") 1 "t" ("hello world".data) _ rfl rfl⟩

/-- C9: when `search` comes back empty, `query_knowledge_base` answers
with the fixed no-information sentence, whatever the generation provider
would do — it is never consulted (the result is the same for every
`generate`). -/
theorem C9_empty_search_short_circuits (st : KBState)
    (hits : List (Int × Int)) (q : String) (ids : Option (List String))
    (cid : Option Nat)
    (h : search st hits ids cid = .ok []) :
    ∀ generate, query_knowledge_base generate st hits q ids cid
      = .ok "No relevant information found in the knowledge base." := by
  intro generate
  rw [query_knowledge_base, h]
  rfl

/-- Witness for C9: a fresh engine, a sentinel hit and one concrete
generation provider. -/
theorem C9_empty_search_short_circuits_witness :
    query_knowledge_base (fun _ => "GEN") initState [(1, -1)] "q" none
      (some 7)
      = .ok "No relevant information found in the knowledge base." :=
  C9_empty_search_short_circuits initState [(1, -1)] "q" none (some 7)
    rfl (fun _ => "GEN")

/-! ## Range-layout lemmas for the per-tenant invariant -/

theorem rangesConsecutive_snoc {l : List DocRecord} {base : Nat}
    (h : rangesConsecutive base l) {r : DocRecord}
    (hr : r.start_idx = base + (l.map (·.num_vectors)).sum) :
    rangesConsecutive base (l ++ [r]) := by
  induction l generalizing base with
  | nil =>
    refine ⟨by simpa using hr, trivial⟩
  | cons a t ih =>
    obtain ⟨ha, ht⟩ := h
    refine ⟨ha, ih ht ?_⟩
    rw [hr]
    simp only [List.map_cons, List.sum_cons]
    omega

theorem rangesConsecutive_lb {base : Nat} {l : List DocRecord}
    (h : rangesConsecutive base l) : ∀ r ∈ l, base ≤ r.start_idx := by
  induction l generalizing base with
  | nil => intro r hr; simp at hr
  | cons a t ih =>
    obtain ⟨ha, ht⟩ := h
    intro r hr
    rcases List.mem_cons.mp hr with h' | h'
    · rw [h', ha]
    · have := ih ht r h'
      omega

theorem rangesConsecutive_disjoint {base : Nat} {l : List DocRecord}
    (h : rangesConsecutive base l) :
    l.Pairwise fun r1 r2 => ∀ j, ¬(inRange r1 j ∧ inRange r2 j) := by
  induction l generalizing base with
  | nil => exact List.Pairwise.nil
  | cons a t ih =>
    obtain ⟨ha, ht⟩ := h
    refine List.Pairwise.cons ?_ (ih ht)
    intro r hr j hj
    have hlb := rangesConsecutive_lb ht r hr
    simp only [inRange] at hj
    omega

theorem rangesConsecutive_cover {base : Nat} {l : List DocRecord}
    (h : rangesConsecutive base l) (j : Nat) :
    (∃ r ∈ l, inRange r j) ↔
      (base ≤ j ∧ j < base + (l.map (·.num_vectors)).sum) := by
  induction l generalizing base with
  | nil =>
    simp only [List.map_nil, List.sum_nil, Nat.add_zero]
    constructor
    · rintro ⟨r, hr, _⟩; simp at hr
    · intro hj; omega
  | cons a t ih =>
    obtain ⟨ha, ht⟩ := h
    simp only [List.mem_cons, List.map_cons, List.sum_cons]
    constructor
    · rintro ⟨r, hr | hr, hj⟩
      · subst hr
        simp only [inRange] at hj
        omega
      · have := (ih ht).mp ⟨r, hr, hj⟩
        omega
    · intro hj
      by_cases hcase : j < base + a.num_vectors
      · exact ⟨a, Or.inl rfl, by simp only [inRange]; omega⟩
      · obtain ⟨r, hr, hj'⟩ := (ih ht).mpr (by omega)
        exact ⟨r, Or.inr hr, hj'⟩

theorem tenantDocsMd_append (md : List (String × DocRecord)) (k : String)
    (r : DocRecord) (cid : Nat) :
    tenantDocsMd (md ++ [(k, r)]) cid =
      tenantDocsMd md cid ++
        (if r.chatbot_id = cid then [r] else []) := by
  simp only [tenantDocsMd, List.filter_append, List.map_append]
  congr 1
  by_cases h : r.chatbot_id = cid
  · simp [List.filter, h]
  · simp [List.filter, beq_eq_false_iff_ne.mpr h, h]

theorem initState_Inv : Inv initState := by
  intro cid
  exact ⟨trivial, rfl⟩

theorem runIngest_Inv {embed : List Char → Except String Nat}
    {st : KBState} {call : IngestCall}
    (hfresh : ∀ p ∈ st.metadata, p.1 ≠ call.document_id)
    (hinv : Inv st) : Inv (runIngest embed st call) := by
  rw [runIngest]
  cases hadd : add_document embed st call.fd call.file_path
      (some call.document_id) (some call.chatbot_id) call.now with
  | error e => exact hinv
  | ok q =>
    obtain ⟨st', rid⟩ := q
    obtain ⟨text, embs, hext, hemb, hlen, hrid, hst⟩ := add_document_ok hadd
    have hrid' : rid = call.document_id := by simpa using hrid
    subst hrid'
    subst hst
    intro cid
    have hins := dictInsert_fresh
      (m := st.metadata) (k := call.document_id)
      { file_path := call.file_path, chunks := chunk_text text,
        num_vectors := (chunk_text text).length,
        start_idx := getNtotal st.indices call.chatbot_id + embs.length
          - (chunk_text text).length,
        added_at := call.now, chatbot_id := call.chatbot_id }
      hfresh
    show rangesConsecutive 0 (tenantDocsMd (dictInsert st.metadata _ _) cid) ∧
      getNtotal (setNtotal st.indices call.chatbot_id
          (getNtotal st.indices call.chatbot_id + embs.length)) cid =
        ((tenantDocsMd (dictInsert st.metadata _ _) cid).map
          (·.num_vectors)).sum
    rw [hins, tenantDocsMd_append]
    obtain ⟨hrc, hsum⟩ := hinv cid
    simp only [tenantDocs] at hrc hsum
    by_cases hcid : call.chatbot_id = cid
    · subst hcid
      rw [if_pos rfl]
      constructor
      · refine rangesConsecutive_snoc hrc ?_
        show getNtotal st.indices call.chatbot_id + embs.length
          - (chunk_text text).length = _
        omega
      · rw [getNtotal_setNtotal_self, List.map_append, List.sum_append]
        show _ = _ + ((chunk_text text).length + 0)
        omega
    · rw [if_neg hcid, List.append_nil]
      refine ⟨hrc, ?_⟩
      rw [getNtotal_setNtotal_other fun h => hcid h.symm]
      exact hsum

theorem runIngest_metadata_mem {embed : List Char → Except String Nat}
    {st : KBState} {call : IngestCall} {p : String × DocRecord}
    (hp : p ∈ (runIngest embed st call).metadata) :
    p.1 = call.document_id ∨ p ∈ st.metadata := by
  rw [runIngest] at hp
  cases hadd : add_document embed st call.fd call.file_path
      (some call.document_id) (some call.chatbot_id) call.now with
  | error e => rw [hadd] at hp; right; exact hp
  | ok q =>
    obtain ⟨st', rid⟩ := q
    rw [hadd] at hp
    obtain ⟨text, embs, _, _, _, hrid, hst⟩ := add_document_ok hadd
    subst hst
    rcases mem_dictInsert hp with h | h
    · left; rw [h]; simpa using hrid
    · right; exact h

theorem foldl_runIngest_Inv {embed : List Char → Except String Nat} :
    ∀ (calls : List IngestCall) (st : KBState), Inv st →
      (∀ c ∈ calls, ∀ p ∈ st.metadata, p.1 ≠ c.document_id) →
      calls.Pairwise (fun a b => a.document_id ≠ b.document_id) →
      Inv (calls.foldl (runIngest embed) st) := by
  intro calls
  induction calls with
  | nil => intro st h _ _; exact h
  | cons c rest ih =>
    intro st hinv hfresh hpw
    rw [List.foldl_cons]
    obtain ⟨hhead, hpw'⟩ := List.pairwise_cons.mp hpw
    apply ih
    · exact runIngest_Inv
        (fun p hp => hfresh c (List.mem_cons_self _ _) p hp) hinv
    · intro c' hc' p hp
      rcases runIngest_metadata_mem hp with h' | h'
      · rw [h']; exact hhead c' hc'
      · exact hfresh c' (List.mem_cons_of_mem _ hc') p h'
    · exact hpw'

/-- C1: after any sequential ingestion sequence with pairwise-distinct
document ids, every tenant's document ranges
`[start_idx, start_idx+num_vectors)` are pairwise disjoint, their union
is exactly `[0, ntotal)` of the tenant's index, and the tenant's
`ntotal` is the sum of `num_vectors` over its documents. -/
theorem C1_ranges_partition (embed : List Char → Except String Nat)
    (calls : List IngestCall)
    (hdist : calls.Pairwise fun a b => a.document_id ≠ b.document_id) :
    ∀ cid,
      (tenantDocs (runAll embed calls) cid).Pairwise
        (fun r1 r2 => ∀ j, ¬(inRange r1 j ∧ inRange r2 j)) ∧
      (∀ j, (∃ r ∈ tenantDocs (runAll embed calls) cid, inRange r j) ↔
        j < getNtotal (runAll embed calls).indices cid) ∧
      getNtotal (runAll embed calls).indices cid =
        ((tenantDocs (runAll embed calls) cid).map (·.num_vectors)).sum := by
  have hinv : Inv (runAll embed calls) :=
    foldl_runIngest_Inv calls initState initState_Inv
      (fun c _ p hp => absurd hp (List.not_mem_nil p)) hdist
  intro cid
  obtain ⟨hrc, hsum⟩ := hinv cid
  refine ⟨rangesConsecutive_disjoint hrc, ?_, hsum⟩
  intro j
  rw [rangesConsecutive_cover hrc j, hsum]
  omega

/-- Witness for C1: two documents ingested for tenant 7. -/
theorem C1_ranges_partition_witness :
    (tenantDocs (runAll embedOk [sampleCallA, sampleCallB]) 7).Pairwise
      (fun r1 r2 => ∀ j, ¬(inRange r1 j ∧ inRange r2 j)) ∧
    (∀ j, (∃ r ∈ tenantDocs (runAll embedOk [sampleCallA, sampleCallB])
        7, inRange r j) ↔
      j < getNtotal (runAll embedOk [sampleCallA, sampleCallB]).indices
        7) ∧
    getNtotal (runAll embedOk [sampleCallA, sampleCallB]).indices 7 =
      ((tenantDocs (runAll embedOk [sampleCallA, sampleCallB]) 7).map
        (·.num_vectors)).sum :=
  C1_ranges_partition embedOk [sampleCallA, sampleCallB] (by decide) 7

end FileQA
